import Mathlib

/-!
Verification of the snowmobile_analyzer detection pipeline (`src/predict.py`).

The pipeline classifies fixed-duration (3 s) audio clips, gates an expensive
harmonic-ratio computation on classifier confidence, and extracts gated,
time-stamped detections into a CSV artifact.

Embedding conventions:
* numpy float values are modelled as `ℚ` (the claims are about control flow
  and order comparisons, not floating-point rounding);
* a clip (`array` in the Python code) is a `List ℚ` of samples;
* the opaque torch model and `np.exp` are parameters of `predict`;
* side effects of `write_results` (file writes, "no detection" messages) are
  recorded as an explicit event trace.
-/

/-- Model of `np.argmax` on a list of rationals: index of the first occurrence of the
maximum.  `argmaxAux xs i best_idx best_val` scans `xs` whose head has index
`i`, updating the best index only on a strictly larger value (numpy keeps the
first maximum).  numpy raises on an empty array; the embedding returns 0. -/
def argmaxAux : List ℚ → ℕ → ℕ → ℚ → ℕ
  | [], _, best_idx, _ => best_idx
  | x :: xs, i, best_idx, best_val =>
    if best_val < x then argmaxAux xs (i + 1) i x
    else argmaxAux xs (i + 1) best_idx best_val

/-- Model of `np.argmax(conf, axis=0)` for a 1-d array. -/
def argmax : List ℚ → ℕ
  | [] => 0
  | x :: xs => argmaxAux xs 1 0 x

/-- Model of `conf.max()` for a 1-d numpy array (numpy raises on empty; we return 0). -/
def listMax : List ℚ → ℚ
  | [] => 0
  | x :: xs => xs.foldl max x

/-- One CSV row of the detection report, with the source's column names
`start_detection, end_detection, label, confidence, hr`. -/
structure Row where
  start_detection : ℕ
  end_detection : ℕ
  label : ℕ
  confidence : ℚ
  hr : ℚ
deriving DecidableEq, Repr

/-- Observable side effects of `write_results`:
`writeFile rows` models `open(outname, "w")` followed by writing the header
and all of `rows` (a full truncating rewrite of the artifact);
`noDetectionMsg` models printing and logging
"No detection has been made for ...". -/
inductive Event where
  | writeFile (rows : List Row) : Event
  | noDetectionMsg : Event
deriving DecidableEq, Repr

/-- The loop body of `write_results` (src/predict.py lines 98-128), embedded
with explicit state.  Faithful to the source's indentation: the
`if len(rows_for_csv) > 0: ... else: ...` write/notify block sits INSIDE the
`for` loop, so one `Event` is emitted per processed pair.
State: remaining zipped pairs, `idx_begin`, accumulated `rows_for_csv`,
accumulated event trace. -/
def write_results_go (min_hr min_conf : ℚ) :
    List (List ℚ × ℚ) → ℕ → List Row → List Event → List Row × List Event
  | [], _, rows_for_csv, events => (rows_for_csv, events)
  | (item_audioclip, item_hr) :: rest, idx_begin, rows_for_csv, events =>
    let idx_end := idx_begin + 3
    let conf := item_audioclip
    let label := argmax conf
    let max_value := listMax conf
    let hr := item_hr
    let rows' :=
      if label ≠ 0 ∧ hr > min_hr ∧ max_value > min_conf then
        rows_for_csv ++ [⟨idx_begin, idx_end, label, max_value, hr⟩]
      else rows_for_csv
    let events' :=
      if rows'.length > 0 then events ++ [Event.writeFile rows']
      else events ++ [Event.noDetectionMsg]
    write_results_go min_hr min_conf rest idx_end rows' events'

/-- Embedding of `write_results(prob_audioclip_array, hr_array, outname, min_hr, min_conf)`
(src/predict.py lines 92-128).  The two arrays are zipped as in the source's
`for ... in zip(...)`; returns the final `rows_for_csv` and the event trace. -/
def write_results (prob_audioclip_array : List (List ℚ)) (hr_array : List ℚ)
    (min_hr min_conf : ℚ) : List Row × List Event :=
  write_results_go min_hr min_conf (prob_audioclip_array.zip hr_array) 0 [] []

/-- Content of the output file after the trace has run: each `writeFile`
truncates and rewrites, so the last `writeFile`'s rows (if any write happened)
are what persists. -/
def finalArtifact (events : List Event) : Option (List Row) :=
  events.foldl
    (fun acc e => match e with
      | Event.writeFile rows => some rows
      | Event.noDetectionMsg => acc)
    none

/-- Discriminator for file-write events. -/
def isWriteEvent : Event → Bool
  | Event.writeFile _ => true
  | Event.noDetectionMsg => false

/-- Characterization target for the rows of `write_results`: the row list
produced from the pairs starting at offset `b`, one (optional) row per pair,
advancing the offset by 3 per pair. -/
def detRowsFrom (min_hr min_conf : ℚ) : ℕ → List (List ℚ × ℚ) → List Row
  | _, [] => []
  | b, p :: rest =>
    (if argmax p.1 ≠ 0 ∧ p.2 > min_hr ∧ listMax p.1 > min_conf then
      [⟨b, b + 3, argmax p.1, listMax p.1, p.2⟩]
     else []) ++ detRowsFrom min_hr min_conf (b + 3) rest

/-- The detection gate of `write_results` as a boolean predicate on one
zipped pair. -/
def gateB (min_hr min_conf : ℚ) (p : List ℚ × ℚ) : Bool :=
  decide (argmax p.1 ≠ 0 ∧ p.2 > min_hr ∧ listMax p.1 > min_conf)

/-- Zero-based indices (within the pair list, first index `i`) of the pairs that
pass the detection gate. -/
def gateIndicesFrom (min_hr min_conf : ℚ) : ℕ → List (List ℚ × ℚ) → List ℕ
  | _, [] => []
  | i, p :: rest =>
    (if argmax p.1 ≠ 0 ∧ p.2 > min_hr ∧ listMax p.1 > min_conf then [i] else [])
      ++ gateIndicesFrom min_hr min_conf (i + 1) rest

/-- Duration of one clip in seconds.  The upstream `AudioList` segmenter cuts
3 s clips; `write_results` hardcodes this as `idx_end = idx_begin + 3`. -/
def clip_duration : ℕ := 3

/-- An audio signal as constructed in `compute_hr`:
`AudioSignal(samples=array, fs=44100)`. -/
structure AudioSignal where
  samples : List ℚ
  fs : ℚ

/-- Modelled from the spec: the implementations of
`AudioSignal.apply_butterworth_filter` and `AudioSignal.harmonic_ratio` live in
`utils/audio_signal.py`, which is not among the sources.  Per the spec,
`apply_butterworth_filter order Wn samples` band-limits the waveform with a
Butterworth band-pass filter of the given order and normalized passband, and
`harmonic_ratio win_length hop_length window samples` frames the signal into
overlapping windows of `win_length` samples with hop `hop_length`, applies the
named window function, and returns one periodicity score per frame.  Both are
kept abstract here (their numerics are irrelevant to the claims); `compute_hr`
below fixes every parameter they are called with. -/
structure SignalOps where
  apply_butterworth_filter : ℕ → ℚ × ℚ → List ℚ → List ℚ
  harmonic_ratio : ℕ → ℕ → String → List ℚ → List ℚ

/-- Model of `np.mean` of a 1-d array: the arithmetic mean (sum divided by length). -/
def mean (l : List ℚ) : ℚ := l.sum / l.length

/-- Embedding of `compute_hr(array)` (src/predict.py lines 30-42): build an `AudioSignal`
at 44100 Hz, apply `apply_butterworth_filter(order=18,
Wn=np.asarray([1, 600]) / (signal.fs / 2))`, call
`harmonic_ratio(win_length=int(1 * signal.fs), hop_length=int(0.1 * signal.fs),
window="hamming")` and take `np.mean` of the per-frame scores.  Python's
`int()` truncation on the nonnegative products is modelled by `Int.toNat ∘
Int.floor`. -/
def compute_hr (ops : SignalOps) (array : List ℚ) : ℚ :=
  let signal : AudioSignal := { samples := array, fs := 44100 }
  let filtered := ops.apply_butterworth_filter 18
    (1 / (signal.fs / 2), 600 / (signal.fs / 2)) signal.samples
  let signal_hr := ops.harmonic_ratio
    (Int.toNat ⌊(1 : ℚ) * signal.fs⌋) (Int.toNat ⌊(1 / 10 : ℚ) * signal.fs⌋)
    "hamming" filtered
  mean signal_hr

/-- The loop of `predict` (src/predict.py lines 44-70), with explicit
accumulators `proba_list` and `hr_list`.  `qexp` stands for `np.exp` applied
elementwise, `model` for the opaque torch model's forward pass on one clip
(`batch_size=1` throughout `analyzeFile`, so the source's `output[0]` is the
clip's output vector), and `computeHr` for `compute_hr`. -/
def predict_go (qexp : ℚ → ℚ) (model : List ℚ → List ℚ) (computeHr : List ℚ → ℚ)
    (threshold : ℚ) :
    List (List ℚ) → List (List ℚ) → List ℚ → List (List ℚ) × List ℚ
  | [], proba_list, hr_list => (proba_list, hr_list)
  | array :: rest, proba_list, hr_list =>
    let output := (model array).map qexp
    let max_value := listMax output
    let hr_list' :=
      if max_value ≥ threshold then hr_list ++ [computeHr array]
      else hr_list ++ [0]
    predict_go qexp model computeHr threshold rest (proba_list ++ [output]) hr_list'

/-- Embedding of `predict(testLoader, model, device, threshold=0.99)`: returns
`(proba_list, hr_list)`. -/
def predict (qexp : ℚ → ℚ) (model : List ℚ → List ℚ) (computeHr : List ℚ → ℚ)
    (testLoader : List (List ℚ)) (threshold : ℚ := 99 / 100) :
    List (List ℚ) × List ℚ :=
  predict_go qexp model computeHr threshold testLoader [] []

/-- Python `str.split` with a one-character separator, on the character list:
`splitOnChar c s` never returns `[]` (Python's `split` always yields at least
one piece). -/
def splitOnChar (c : Char) : List Char → List (List Char)
  | [] => [[]]
  | x :: xs =>
    let r := splitOnChar c xs
    if x = c then [] :: r
    else
      match r with
      | [] => [[x]]
      | y :: ys => (x :: y) :: ys

/-- Python `s.split(c)` for a one-character separator `c`. -/
def pySplit (s : String) (c : Char) : List String :=
  (splitOnChar c s.data).map String.mk

/-- Python `sep.join(parts)`. -/
def pyJoin (sep : String) : List String → String
  | [] => ""
  | [x] => x
  | x :: xs => x ++ sep ++ pyJoin sep xs

/-- Model of `os.path.dirname` for the relative, forward-slash paths used here:
everything before the last `/`, or `""` when there is no `/`. -/
def dirname (s : String) : String :=
  let parts := pySplit s '/'
  if parts.length ≤ 1 then "" else pyJoin "/" parts.dropLast

/-- Model of `os.path.join a b` for the shapes occurring in `analyzeFile`: `a` is a
relative path not ending in `/` (or empty) and `b` a relative component. -/
def path_join (a b : String) : String :=
  if a = "" then b else a ++ "/" ++ b

/-- Result of one `analyzeFile` call, restricted to its artifact handling:
either the existence check fired (only "File ... already exists" is printed,
nothing is recomputed) or the predictions run and `write_results` is pointed
at the returned destination path. -/
inductive AnalyzeOutcome where
  | skipped : AnalyzeOutcome
  | wrote (outpath : String) : AnalyzeOutcome
deriving DecidableEq, Repr

/-- The destination handling of `analyzeFile` (src/predict.py lines 131-159),
with the filesystem abstracted as the predicate `fsExists` standing for
`os.path.exists` (relative paths are resolved against the process working
directory, so a bare filename refers to the working directory).  Faithful to
the source: the existence check is `os.path.exists(outname)` on the bare
filename `outname`, not on the destination `outpath` that `write_results`
writes to. -/
def analyzeFile (fsExists : String → Bool) (file_path : String) : AnalyzeOutcome :=
  let input_dir := dirname file_path
  let result_folder := path_join input_dir "SNOWMOBILE_RESULTS"
  let outname := ((pySplit ((pySplit file_path '/').getLastD "") '.').headD "")
    ++ "_ANALYZED.csv"
  let outpath := path_join result_folder outname
  if fsExists outname then AnalyzeOutcome.skipped
  else AnalyzeOutcome.wrote outpath

/-- The filesystem of the C3 counterexample: the destination artifact of a
previous successful `analyzeFile "recordings/rec.wav"` run exists, and the
working directory contains no stray `rec_ANALYZED.csv`. -/
def fsAfterFirstRun : String → Bool :=
  fun p => p == "recordings/SNOWMOBILE_RESULTS/rec_ANALYZED.csv"

theorem write_results_go_fst (min_hr min_conf : ℚ) :
    ∀ (pairs : List (List ℚ × ℚ)) (b : ℕ) (rows : List Row) (events : List Event),
      (write_results_go min_hr min_conf pairs b rows events).1
        = rows ++ detRowsFrom min_hr min_conf b pairs := by
  intro pairs
  induction pairs with
  | nil => intro b rows events; simp [write_results_go, detRowsFrom]
  | cons p rest ih =>
    intro b rows events
    obtain ⟨item_audioclip, item_hr⟩ := p
    simp only [write_results_go, detRowsFrom]
    by_cases hg : argmax item_audioclip ≠ 0 ∧ item_hr > min_hr ∧
        listMax item_audioclip > min_conf
    · simp only [if_pos hg, ih]
      simp
    · simp only [if_neg hg, ih]
      simp

theorem detRowsFrom_start_ge (min_hr min_conf : ℚ) :
    ∀ (pairs : List (List ℚ × ℚ)) (b : ℕ) (r : Row),
      r ∈ detRowsFrom min_hr min_conf b pairs → b ≤ r.start_detection := by
  intro pairs
  induction pairs with
  | nil => intro b r hr; simp [detRowsFrom] at hr
  | cons p rest ih =>
    intro b r hr
    simp only [detRowsFrom, List.mem_append] at hr
    rcases hr with hr | hr
    · by_cases hg : argmax p.1 ≠ 0 ∧ p.2 > min_hr ∧ listMax p.1 > min_conf
      · rw [if_pos hg] at hr
        simp at hr
        subst hr
        exact le_refl b
      · rw [if_neg hg] at hr
        simp at hr
    · exact le_trans (Nat.le_add_right b 3) (ih (b + 3) r hr)

theorem detRowsFrom_chain (min_hr min_conf : ℚ) :
    ∀ (pairs : List (List ℚ × ℚ)) (b : ℕ),
      List.Chain' (· ≤ ·)
        ((detRowsFrom min_hr min_conf b pairs).map Row.start_detection) := by
  intro pairs
  induction pairs with
  | nil => intro b; simp [detRowsFrom]
  | cons p rest ih =>
    intro b
    simp only [detRowsFrom]
    by_cases hg : argmax p.1 ≠ 0 ∧ p.2 > min_hr ∧ listMax p.1 > min_conf
    · rw [if_pos hg]
      simp only [List.singleton_append, List.map_cons]
      rw [List.chain'_cons']
      refine ⟨?_, ih (b + 3)⟩
      intro y hy
      have hmem : y ∈ (detRowsFrom min_hr min_conf (b + 3) rest).map Row.start_detection :=
        List.mem_of_mem_head? hy
      obtain ⟨r, hrmem, hry⟩ := List.mem_map.mp hmem
      have := detRowsFrom_start_ge min_hr min_conf rest (b + 3) r hrmem
      omega
    · rw [if_neg hg]
      simpa using ih (b + 3)

theorem detRowsFrom_length (min_hr min_conf : ℚ) :
    ∀ (pairs : List (List ℚ × ℚ)) (b : ℕ),
      (detRowsFrom min_hr min_conf b pairs).length
        = pairs.countP (gateB min_hr min_conf) := by
  intro pairs
  induction pairs with
  | nil => intro b; simp [detRowsFrom]
  | cons p rest ih =>
    intro b
    simp only [detRowsFrom, List.length_append, List.countP_cons]
    by_cases hg : argmax p.1 ≠ 0 ∧ p.2 > min_hr ∧ listMax p.1 > min_conf
    · rw [if_pos hg]
      have hb : gateB min_hr min_conf p = true := by
        simp [gateB, hg]
      simp [hb, ih (b + 3)]
      omega
    · rw [if_neg hg]
      have hb : gateB min_hr min_conf p = false := by
        rw [gateB, decide_eq_false_iff_not]
        exact hg
      simp [hb, ih (b + 3)]

theorem detRowsFrom_intervals (min_hr min_conf : ℚ) :
    ∀ (pairs : List (List ℚ × ℚ)) (i : ℕ),
      (detRowsFrom min_hr min_conf (3 * i) pairs).map
          (fun r => (r.start_detection, r.end_detection))
        = (gateIndicesFrom min_hr min_conf i pairs).map (fun j => (3 * j, 3 * j + 3)) := by
  intro pairs
  induction pairs with
  | nil => intro i; simp [detRowsFrom, gateIndicesFrom]
  | cons p rest ih =>
    intro i
    simp only [detRowsFrom, gateIndicesFrom, List.map_append]
    have hrec := ih (i + 1)
    have h3 : 3 * (i + 1) = 3 * i + 3 := by ring
    rw [h3] at hrec
    by_cases hg : argmax p.1 ≠ 0 ∧ p.2 > min_hr ∧ listMax p.1 > min_conf
    · rw [if_pos hg, if_pos hg, hrec]
      simp
    · rw [if_neg hg, if_neg hg, hrec]
      simp

theorem detRowsFrom_label_conf (min_hr min_conf : ℚ) :
    ∀ (pairs : List (List ℚ × ℚ)) (b : ℕ),
      (detRowsFrom min_hr min_conf b pairs).map (fun r => (r.label, r.confidence))
        = (pairs.filter (gateB min_hr min_conf)).map
            (fun p => (argmax p.1, listMax p.1)) := by
  intro pairs
  induction pairs with
  | nil => intro b; simp [detRowsFrom]
  | cons p rest ih =>
    intro b
    simp only [detRowsFrom, List.map_append, List.filter_cons]
    by_cases hg : argmax p.1 ≠ 0 ∧ p.2 > min_hr ∧ listMax p.1 > min_conf
    · have hb : gateB min_hr min_conf p = true := by
        rw [gateB, decide_eq_true_eq]; exact hg
      rw [if_pos hg, hb]
      simp [ih (b + 3)]
    · have hb : gateB min_hr min_conf p = false := by
        rw [gateB, decide_eq_false_iff_not]; exact hg
      rw [if_neg hg, hb]
      simp [ih (b + 3)]

theorem detRowsFrom_countP_start (min_hr min_conf : ℚ) :
    ∀ (pairs : List (List ℚ × ℚ)) (k i : ℕ),
      (detRowsFrom min_hr min_conf (3 * k) pairs).countP
          (fun r => decide (r.start_detection = 3 * (k + i)))
        = if argmax (pairs.getD i ([], 0)).1 ≠ 0 ∧ (pairs.getD i ([], 0)).2 > min_hr ∧
              listMax (pairs.getD i ([], 0)).1 > min_conf
          then 1 else 0 := by
  intro pairs
  induction pairs with
  | nil =>
    intro k i
    have : argmax (([] : List ℚ)) = 0 := by rfl
    simp [detRowsFrom, List.getD, argmax]
  | cons p rest ih =>
    intro k i
    have hrest0 :
        (detRowsFrom min_hr min_conf (3 * k + 3) rest).countP
            (fun r => decide (r.start_detection = 3 * k)) = 0 := by
      rw [List.countP_eq_zero]
      intro r hr
      have := detRowsFrom_start_ge min_hr min_conf rest (3 * k + 3) r hr
      simp only [decide_eq_true_eq]
      omega
    match i with
    | 0 =>
      simp only [detRowsFrom, List.countP_append, List.getD_cons_zero, Nat.add_zero]
      by_cases hg : argmax p.1 ≠ 0 ∧ p.2 > min_hr ∧ listMax p.1 > min_conf
      · rw [if_pos hg, if_pos hg]
        simp [hrest0]
      · rw [if_neg hg, if_neg hg]
        simp [hrest0]
    | i' + 1 =>
      simp only [detRowsFrom, List.countP_append, List.getD_cons_succ]
      have hrec := ih (k + 1) i'
      have h31 : 3 * (k + 1) = 3 * k + 3 := by ring
      have h32 : 3 * (k + 1 + i') = 3 * (k + (i' + 1)) := by ring
      rw [h31, h32] at hrec
      have hhead :
          (if argmax p.1 ≠ 0 ∧ p.2 > min_hr ∧ listMax p.1 > min_conf then
            [(⟨3 * k, 3 * k + 3, argmax p.1, listMax p.1, p.2⟩ : Row)]
           else []).countP (fun r => decide (r.start_detection = 3 * (k + (i' + 1)))) = 0 := by
        by_cases hg : argmax p.1 ≠ 0 ∧ p.2 > min_hr ∧ listMax p.1 > min_conf
        · rw [if_pos hg]
          simp only [List.countP_singleton, decide_eq_true_eq]
          rw [if_neg (by omega)]
        · rw [if_neg hg]
          rfl
      rw [hhead, hrec]
      omega

theorem predict_go_fst (qexp : ℚ → ℚ) (model : List ℚ → List ℚ)
    (computeHr : List ℚ → ℚ) (threshold : ℚ) :
    ∀ (loader : List (List ℚ)) (P : List (List ℚ)) (H : List ℚ),
      (predict_go qexp model computeHr threshold loader P H).1
        = P ++ loader.map (fun array => (model array).map qexp) := by
  intro loader
  induction loader with
  | nil => intro P H; simp [predict_go]
  | cons array rest ih =>
    intro P H
    simp only [predict_go, List.map_cons]
    rw [ih]
    simp

theorem predict_go_snd (qexp : ℚ → ℚ) (model : List ℚ → List ℚ)
    (computeHr : List ℚ → ℚ) (threshold : ℚ) :
    ∀ (loader : List (List ℚ)) (P : List (List ℚ)) (H : List ℚ),
      (predict_go qexp model computeHr threshold loader P H).2
        = H ++ loader.map (fun array =>
            if listMax ((model array).map qexp) ≥ threshold then computeHr array
            else 0) := by
  intro loader
  induction loader with
  | nil => intro P H; simp [predict_go]
  | cons array rest ih =>
    intro P H
    simp only [predict_go, List.map_cons]
    by_cases hge : listMax ((model array).map qexp) ≥ threshold
    · rw [if_pos hge, if_pos hge, ih]
      simp
    · rw [if_neg hge, if_neg hge, ih]
      simp

/-- C1: for the `i`-th (ClassificationResult, HarmonicRatio) pair processed by
`write_results`, a Detection row is emitted (exactly one row with the pair's
start offset appears in the report) if and only if the arg-max label is not 0,
the harmonic ratio is strictly greater than `min_hr`, and the maximum
probability is strictly greater than `min_conf` — both threshold comparisons
strict. -/
theorem c1_detection_gate (P : List (List ℚ)) (H : List ℚ) (min_hr min_conf : ℚ)
    (i : ℕ) (h : i < (P.zip H).length) :
    ((write_results P H min_hr min_conf).1.countP
        (fun r => decide (r.start_detection = 3 * i)) = 1)
      ↔ (argmax ((P.zip H).get ⟨i, h⟩).1 ≠ 0 ∧ ((P.zip H).get ⟨i, h⟩).2 > min_hr ∧
          listMax ((P.zip H).get ⟨i, h⟩).1 > min_conf) := by
  rw [write_results, write_results_go_fst, List.nil_append]
  have hc := detRowsFrom_countP_start min_hr min_conf (P.zip H) 0 i
  rw [show (3 : ℕ) * 0 = 0 from rfl, Nat.zero_add] at hc
  rw [hc, List.getD_eq_getElem _ _ h]
  by_cases hg : argmax ((P.zip H).get ⟨i, h⟩).1 ≠ 0 ∧ ((P.zip H).get ⟨i, h⟩).2 > min_hr ∧
      listMax ((P.zip H).get ⟨i, h⟩).1 > min_conf
  · rw [if_pos (by simpa using hg)]
    simpa using hg
  · rw [if_neg (by simpa using hg)]
    simpa using hg

/-- Witness for C1 at a concrete passing input: one pair with probabilities
`[0, 1]` (arg-max label 1, max probability 1), harmonic ratio `1`,
`min_hr = 0`, `min_conf = 0`. -/
theorem c1_detection_gate_witness :
    (write_results [[0, 1]] [1] 0 0).1.countP
        (fun r => decide (r.start_detection = 3 * 0)) = 1 :=
  (c1_detection_gate [[0, 1]] [1] 0 0 0 (by simp)).mpr
    (by norm_num [List.zip, List.zipWith, argmax, argmaxAux, listMax])

/-- C6: the `i`-th (0-indexed) pair's candidate detection interval is
`[i * clip_duration, (i+1) * clip_duration)`: the report's (start, end)
columns are exactly the gate-passing indices mapped through
`i ↦ (i * clip_duration, (i+1) * clip_duration)`, and the number of rows
equals the number of gate-passing pairs — one row per passing clip, so
adjacent same-label clips are never merged into one interval. -/
theorem c6_intervals_from_index (P : List (List ℚ)) (H : List ℚ)
    (min_hr min_conf : ℚ) :
    ((write_results P H min_hr min_conf).1.map
        (fun r => (r.start_detection, r.end_detection)))
      = (gateIndicesFrom min_hr min_conf 0 (P.zip H)).map
          (fun i => (i * clip_duration, (i + 1) * clip_duration))
    ∧ (write_results P H min_hr min_conf).1.length
        = (P.zip H).countP (gateB min_hr min_conf) := by
  constructor
  · rw [write_results, write_results_go_fst, List.nil_append]
    have hI := detRowsFrom_intervals min_hr min_conf (P.zip H) 0
    rw [show (3 : ℕ) * 0 = 0 from rfl] at hI
    rw [hI]
    have hfun : (fun j => (3 * j, 3 * j + 3))
        = fun i : ℕ => (i * clip_duration, (i + 1) * clip_duration) := by
      funext j
      simp [clip_duration]
      omega
    rw [hfun]
  · rw [write_results, write_results_go_fst, List.nil_append,
      detRowsFrom_length]

/-- C7: the rows of the produced detection report are in chronological clip
order — successive `start_detection` values are monotonically
non-decreasing. -/
theorem c7_rows_chronological (P : List (List ℚ)) (H : List ℚ)
    (min_hr min_conf : ℚ) :
    List.Chain' (· ≤ ·)
      ((write_results P H min_hr min_conf).1.map Row.start_detection) := by
  rw [write_results, write_results_go_fst, List.nil_append]
  exact detRowsFrom_chain min_hr min_conf (P.zip H) 0

/-- C2: in `predict`, the harmonic ratio of the `i`-th clip is computed
exactly when the maximum classifier probability is `≥ threshold` (inclusive
at the boundary), and otherwise the recorded value is the sentinel `0`; the
second conjunct restates this for the default threshold `0.99 = 99/100`. -/
theorem c2_confidence_gate (qexp : ℚ → ℚ) (model : List ℚ → List ℚ)
    (computeHr : List ℚ → ℚ) (testLoader : List (List ℚ)) (threshold : ℚ) :
    (predict qexp model computeHr testLoader threshold).2
        = testLoader.map (fun array =>
            if listMax ((model array).map qexp) ≥ threshold then computeHr array
            else 0)
    ∧ (predict qexp model computeHr testLoader).2
        = testLoader.map (fun array =>
            if listMax ((model array).map qexp) ≥ 99 / 100 then computeHr array
            else 0) := by
  constructor
  · rw [predict, predict_go_snd, List.nil_append]
  · rw [predict, predict_go_snd, List.nil_append]

/-- C9: the per-class probabilities used downstream are the model's
log-domain outputs mapped through the exponentiation function, and each
emitted row's `label` / `confidence` are the arg-max index and the maximum of
exactly those exponentiated probabilities. -/
theorem c9_exp_argmax_max (qexp : ℚ → ℚ) (model : List ℚ → List ℚ)
    (computeHr : List ℚ → ℚ) (testLoader : List (List ℚ))
    (threshold min_hr min_conf : ℚ) :
    (predict qexp model computeHr testLoader threshold).1
        = testLoader.map (fun array => (model array).map qexp)
    ∧ ((write_results (predict qexp model computeHr testLoader threshold).1
          (predict qexp model computeHr testLoader threshold).2
          min_hr min_conf).1.map (fun r => (r.label, r.confidence)))
        = (((predict qexp model computeHr testLoader threshold).1.zip
              (predict qexp model computeHr testLoader threshold).2).filter
            (gateB min_hr min_conf)).map
            (fun p => (argmax p.1, listMax p.1)) := by
  refine ⟨?_, ?_⟩
  · rw [predict, predict_go_fst, List.nil_append]
  · rw [write_results, write_results_go_fst, List.nil_append,
      detRowsFrom_label_conf]

/-- C10: a clip skipped by the confidence gate (recorded harmonic ratio is
the sentinel 0) can never be emitted as a Detection when `min_hr ≥ 0`,
because the detection gate requires `harmonic_ratio > min_hr` strictly — even
at `min_hr = 0`, since `0 > 0` is false.  Stated as: no report row carries
the skipped clip's start offset. -/
theorem c10_sentinel_blocks_detection (qexp : ℚ → ℚ) (model : List ℚ → List ℚ)
    (computeHr : List ℚ → ℚ) (testLoader : List (List ℚ))
    (threshold min_hr min_conf : ℚ) (i : ℕ) (hi : i < testLoader.length)
    (hskip : listMax ((model testLoader[i]).map qexp) < threshold)
    (hmh : 0 ≤ min_hr) :
    ((write_results (predict qexp model computeHr testLoader threshold).1
        (predict qexp model computeHr testLoader threshold).2
        min_hr min_conf).1.countP
      (fun r => decide (r.start_detection = 3 * i))) = 0 := by
  rw [write_results, write_results_go_fst, List.nil_append]
  rw [predict, predict_go_fst, predict_go_snd, List.nil_append, List.nil_append]
  rw [List.zip_map']
  have hc := detRowsFrom_countP_start min_hr min_conf
    (testLoader.map (fun a => ((model a).map qexp,
      if listMax ((model a).map qexp) ≥ threshold then computeHr a else 0))) 0 i
  rw [show (3 : ℕ) * 0 = 0 from rfl, Nat.zero_add] at hc
  rw [hc]
  have hlen : i < (testLoader.map (fun a => ((model a).map qexp,
      if listMax ((model a).map qexp) ≥ threshold then computeHr a else 0))).length := by
    simpa using hi
  rw [List.getD_eq_getElem _ _ hlen, List.getElem_map]
  have hlt : ¬ (listMax ((model testLoader[i]).map qexp) ≥ threshold) :=
    not_le.mpr hskip
  rw [if_neg hlt]
  rw [if_neg ?hgate]
  case hgate =>
    rintro ⟨-, h2, -⟩
    exact absurd h2 (not_lt.mpr hmh)

/-- Witness for C10: one clip whose exponentiated model output is `[0]`
(maximum probability 0, below the threshold 1, so the harmonic-ratio
computation is skipped and the sentinel 0 recorded), `min_hr = 0`: no row of
the report carries that clip's start offset. -/
theorem c10_sentinel_blocks_detection_witness :
    ((write_results (predict id (fun _ => [0]) (fun _ => 7) [[0]] 1).1
        (predict id (fun _ => [0]) (fun _ => 7) [[0]] 1).2 0 0).1.countP
      (fun r => decide (r.start_detection = 3 * 0))) = 0 :=
  c10_sentinel_blocks_detection id (fun _ => [0]) (fun _ => (7 : ℚ)) [[0]] 1 0 0 0
    (by norm_num) (by norm_num [listMax]) (le_refl 0)

/-- C8: `compute_hr` (1) applies a Butterworth band-pass filter of order 18
with passband `[1 Hz, 600 Hz]` normalized to the Nyquist frequency
`44100 / 2 = 22050 Hz`, (2) frames the filtered signal with frame length
1 s = 44100 samples and hop 0.1 s = 4410 samples under a Hamming window,
(3) obtains the per-frame periodicity scores from `harmonic_ratio`, and
(4) aggregates them into one scalar by arithmetic mean (sum over count). -/
theorem c8_hr_pipeline (ops : SignalOps) (array : List ℚ) :
    compute_hr ops array
      = (ops.harmonic_ratio 44100 4410 "hamming"
           (ops.apply_butterworth_filter 18 (1 / 22050, 600 / 22050) array)).sum
        / ((ops.harmonic_ratio 44100 4410 "hamming"
           (ops.apply_butterworth_filter 18 (1 / 22050, 600 / 22050) array)).length
            : ℚ) := by
  simp only [compute_hr, mean]
  have h1 : Int.toNat ⌊(1 : ℚ) * (44100 : ℚ)⌋ = 44100 := by norm_num; rfl
  have h2 : Int.toNat ⌊(1 / 10 : ℚ) * (44100 : ℚ)⌋ = 4410 := by norm_num; rfl
  have h3 : (1 : ℚ) / ((44100 : ℚ) / 2) = 1 / 22050 := by norm_num
  have h4 : (600 : ℚ) / ((44100 : ℚ) / 2) = 600 / 22050 := by norm_num
  rw [h1, h2, h3, h4]

/-- C3 (refuted; code bug): after a successful first run, the destination
artifact `recordings/SNOWMOBILE_RESULTS/rec_ANALYZED.csv` exists, yet a
second `analyzeFile` call on `recordings/rec.wav` is NOT a no-op skip: the
source checks `os.path.exists(outname)` on the bare filename
`rec_ANALYZED.csv` (resolved against the working directory) instead of the
destination `outpath`, so the predictions re-run and `write_results`
truncates and rewrites the destination. -/
theorem c3_existence_check_misses_destination :
    fsAfterFirstRun "recordings/SNOWMOBILE_RESULTS/rec_ANALYZED.csv" = true
    ∧ analyzeFile fsAfterFirstRun "recordings/rec.wav"
        = AnalyzeOutcome.wrote "recordings/SNOWMOBILE_RESULTS/rec_ANALYZED.csv"
    ∧ analyzeFile fsAfterFirstRun "recordings/rec.wav" ≠ AnalyzeOutcome.skipped :=
  ⟨rfl, by decide, by decide⟩

/-- C4 (refuted; code bug): on two background clips (arg-max label 0) and no
qualifying detection, `write_results` emits the informational "no detection"
signal TWICE — once per processed clip, because the write/notify block is
indented inside the per-clip loop — not exactly once per file as claimed
(the message text itself is per-file).  The claim's other half does hold
here: no artifact body is ever written (`finalArtifact` is `none`). -/
theorem c4_duplicate_no_detection_signal :
    (write_results [[1, 0], [1, 0]] [0, 0] 0 1).2
        = [Event.noDetectionMsg, Event.noDetectionMsg]
    ∧ (write_results [[1, 0], [1, 0]] [0, 0] 0 1).2.countP
        (fun e => decide (e = Event.noDetectionMsg)) = 2
    ∧ finalArtifact (write_results [[1, 0], [1, 0]] [0, 0] 0 1).2 = none := by
  refine ⟨?_, ?_, ?_⟩ <;>
    norm_num [write_results, write_results_go, List.zip, List.zipWith,
      argmax, argmaxAux, listMax, finalArtifact, List.foldl]

/-- C5 (refuted; code bug): on two qualifying clips the artifact is written
TWICE, not once after the full report: the `open(outname, "w")` block runs
inside the per-clip loop, so after the first clip a partial artifact holding
only the first row persists on disk, and is only later overwritten by the
full two-row report.  The trace shows both writes and the partial content of
the first. -/
theorem c5_incremental_partial_writes :
    (write_results [[0, 1], [0, 1]] [1, 1] 0 0).2
        = [Event.writeFile [⟨0, 3, 1, 1, 1⟩],
           Event.writeFile [⟨0, 3, 1, 1, 1⟩, ⟨3, 6, 1, 1, 1⟩]]
    ∧ (write_results [[0, 1], [0, 1]] [1, 1] 0 0).2.countP isWriteEvent = 2
    ∧ (write_results [[0, 1], [0, 1]] [1, 1] 0 0).1
        = [⟨0, 3, 1, 1, 1⟩, ⟨3, 6, 1, 1, 1⟩] := by
  refine ⟨?_, ?_, ?_⟩ <;>
    norm_num [write_results, write_results_go, List.zip, List.zipWith,
      argmax, argmaxAux, listMax, isWriteEvent]
